import Mathlib

/-!
Verification model of the cctv-news archive tooling.

The repository has three relevant programs:
  * `index.js` — the day-to-day sync entry point (`main`): finds the latest
    stored date, fills the gap up to "now" (Beijing time), or falls back to a
    7-day window when the store is empty;
  * the one-time historical downloader (`HistoricalDownloader`): backfills
    from a fixed start date up to one day before the earliest stored record;
  * `build.js` `generateNewsIndex` — scans the year-partitioned JSON store and
    folds it into the aggregate archive index (totals, per-year totals,
    category histogram, recent-news window).

Modelling conventions:
  * Calendar dates are Gregorian day numbers (days since 0000-03-01, via the
    standard civil-calendar conversion), so moment's `add(1, 'day')` is `+ 1`
    and `diff(..., 'days')` is subtraction.  The source stores dates as
    fixed-width `YYYYMMDD` strings; those are in order-preserving bijection
    with day numbers (lexicographic comparison of fixed-width digit strings
    agrees with chronological order), so string sorting/comparison in the
    source is day-number comparison here.
  * The store (`assets/{year}/{date}.json` with `year = date[0:4]`) is a flat
    association list from day number to file content; the year directory of a
    key is derived (`yearOf`), matching the canonical layout the source both
    writes and assumes.
  * The fetch collaborator (`loadData`, not part of this repository's sources;
    specified as "writes exactly one DayRecord file at the canonical path, or
    throws") is an oracle parameter `Nat → FetchEff`.
  * `setTimeout` delays and per-date attempts are recorded in an event trace.
-/

namespace Cctv

/-- Year/month/day triple of a Gregorian calendar date. -/
structure Ymd where
  y : Nat
  m : Nat
  d : Nat
  deriving DecidableEq, Repr

/-- Day number of a civil date (days since 0000-03-01), the standard
`days_from_civil` computation restricted to `Nat` (all dates this repository
handles are far later than year 1). -/
def dayOfYmd (y m dd : Nat) : Nat :=
  let yy := if m ≤ 2 then y - 1 else y
  let era := yy / 400
  let yoe := yy % 400
  let mp := if 2 < m then m - 3 else m + 9
  let doy := (153 * mp + 2) / 5 + (dd - 1)
  let doe := yoe * 365 + yoe / 4 - yoe / 100 + doy
  era * 146097 + doe

/-- Inverse of `dayOfYmd`: the civil date of a day number (standard
`civil_from_days`). -/
def ymdOfDay (z : Nat) : Ymd :=
  let era := z / 146097
  let doe := z % 146097
  let yoe := (doe - doe / 1460 + doe / 36524 - doe / 146096) / 365
  let yv := yoe + era * 400
  let doy := doe - (365 * yoe + yoe / 4 - yoe / 100)
  let mp := (5 * doy + 2) / 153
  let dv := doy - (153 * mp + 2) / 5 + 1
  let mv := if mp < 10 then mp + 3 else mp - 9
  if mv ≤ 2 then ⟨yv + 1, mv, dv⟩ else ⟨yv, mv, dv⟩

/-- Year component of a stored date key: the `{year}` directory a
`YYYYMMDD.json` file lives in (`date.substring(0, 4)` in the source, under the
canonical layout). -/
def yearOf (z : Nat) : Nat := (ymdOfDay z).y

/-- The `YYYYMMDD` numeral carried by a day number (fixed-width date-string
keys compare exactly like these numerals, hence like day numbers). -/
def dateKey (z : Nat) : Nat :=
  let x := ymdOfDay z
  x.y * 10000 + x.m * 100 + x.d

/-- One news item of a DayRecord.  The indexer only reads the item count of
`videoList` and each item's `news_hl_tag` string; every other field is
presentation payload, represented by `title`. -/
structure NewsItem where
  title : String
  news_hl_tag : String
  deriving DecidableEq, Repr

/-- Content of one `assets/{year}/{date}.json` file as `fs.readJson` sees it:
either not parseable as JSON at all, or a JSON object whose `videoList` field
is present (`some items`) or absent (`none`, the "wrong shape" case). -/
inductive FileContent
  | unparseable
  | parsed (videoList : Option (List NewsItem))
  deriving DecidableEq, Repr

/-- The store: one entry per persisted date file, keyed by day number. -/
abbrev Store := List (Nat × FileContent)

/-- Content of the file for date `d`, if present. -/
def storeLookup (st : Store) (d : Nat) : Option FileContent :=
  (st.find? (fun p => p.1 == d)).map (fun p => p.2)

/-- `fs.pathExists` on the canonical path of date `d` (`fileExists` in
`index.js` and in the historical downloader). -/
def fileExists (st : Store) (d : Nat) : Bool :=
  (storeLookup st d).isSome

/-- A write of the file for date `d` (performed by the fetch collaborator). -/
def storeInsert (st : Store) (d : Nat) (c : FileContent) : Store :=
  (d, c) :: st

/-- `findLatestAssetDate` of `index.js`: scans year directories in reverse
sorted order and returns the largest date file of the newest non-empty year —
under the canonical layout this is the maximum stored key.  The whole body is
wrapped in `try { ... } catch { return null }`, so an unreadable store root
(`rootOk = false`) yields `none`, not an error. -/
def findLatestAssetDate (rootOk : Bool) (st : Store) : Option Nat :=
  if rootOk then
    st.foldl (fun acc p =>
      match acc with
      | none => some p.1
      | some m => some (Nat.max m p.1)) none
  else none

/-- `findEarliestExistingRecord` of the historical downloader: scans year
directories in sorted order and returns the smallest date file of the oldest
non-empty year — under the canonical layout this is the minimum stored key.
(This method has no try/catch in the source.) -/
def findEarliestExistingRecord (st : Store) : Option Nat :=
  st.foldl (fun acc p =>
    match acc with
    | none => some p.1
    | some m => some (Nat.min m p.1)) none

/-- Modelled from the spec: the fetch collaborator `loadData` (required as
`./src/loadData` but not among this repository's sources) "writes exactly one
DayRecord file at the canonical path, or throws".  One call's behaviour:
it throws, or completes having written the DayRecord file (with the given
item list), or completes without creating the file (the post-write
verification failure the crawlers check for). -/
inductive FetchEff
  | throws
  | writes (items : List NewsItem)
  | noWrite
  deriving DecidableEq

/-- Per-date terminal outcome strings of the source (`'success'`, `'exists'`,
`'nodata'`, `'error'`).  `exists` is a Lean keyword, hence `alreadyExists`. -/
inductive Outcome
  | success
  | alreadyExists
  | nodata
  | error
  deriving DecidableEq, Repr

/-- `downloadDate` of `index.js`: skip when the file exists; otherwise call
`loadData` (its throw is caught and returned as `'error'`), then classify by
whether the file was created — note a created file counts as `'success'`
regardless of how many items it holds. -/
def downloadDate (fetch : Nat → FetchEff) (st : Store) (d : Nat) : Outcome × Store :=
  if fileExists st d then (.alreadyExists, st)
  else
    match fetch d with
    | .throws => (.error, st)
    | .noWrite => (.nodata, st)
    | .writes items => (.success, storeInsert st d (.parsed (some items)))

/-- `HistoricalDownloader.downloadDate`: like `downloadDate`, but after a
write it re-reads the file and returns `'success'` only when `videoList` is
non-empty, `'nodata'` (counted separately from errors) when it is empty; a
completed `loadData` that created no file is an `'error'` here. -/
def histDownloadDate (fetch : Nat → FetchEff) (st : Store) (d : Nat) : Outcome × Store :=
  if fileExists st d then (.alreadyExists, st)
  else
    match fetch d with
    | .throws => (.error, st)
    | .noWrite => (.error, st)
    | .writes items =>
      let st' := storeInsert st d (.parsed (some items))
      if 0 < items.length then (.success, st') else (.nodata, st')

/-- Observable event of a crawler run: a per-date attempt with its terminal
outcome, or a `setTimeout` delay of the given milliseconds. -/
inductive Ev
  | attempt (d : Nat) (r : Outcome)
  | delay (ms : Nat)
  deriving DecidableEq, Repr

/-- The `1000` ms delay of `index.js` (used by both its loops). -/
def requestDelayMs : Nat := 1000

/-- The `800` ms delay of the historical downloader. -/
def histDelayMs : Nat := 800

/-- The `downloaded` / `skipped` / `errors` counters of `index.js`'s gap
loop. -/
structure Counters where
  downloaded : Nat
  skipped : Nat
  errors : Nat
  deriving DecidableEq, Repr

/-- The `switch (result)` of the gap loop: `'success'` increments
`downloaded`, `'exists'` increments `skipped`, and both `'error'` and
`'nodata'` increment `errors`. -/
def bumpCounters (c : Counters) : Outcome → Counters
  | .success => { c with downloaded := c.downloaded + 1 }
  | .alreadyExists => { c with skipped := c.skipped + 1 }
  | .error => { c with errors := c.errors + 1 }
  | .nodata => { c with errors := c.errors + 1 }

/-- The gap-filling `while (current.isSameOrBefore(todayMoment))` loop of
`index.js` over its (precomputed, ascending) date sequence: download, count,
step one day, delay. -/
def processGap (fetch : Nat → FetchEff) :
    List Nat → Store → Counters → Store × Counters × List Ev
  | [], st, c => (st, c, [])
  | d :: ds, st, c =>
    let s1 := downloadDate fetch st d
    let rest := processGap fetch ds s1.2 (bumpCounters c s1.1)
    (rest.1, rest.2.1, Ev.attempt d s1.1 :: Ev.delay requestDelayMs :: rest.2.2)

/-- The empty-store fallback `for (let i = 0; i < 7; i++)` loop of `index.js`
over its date sequence: download, count successes only, delay. -/
def processFallback (fetch : Nat → FetchEff) :
    List Nat → Store → Nat → Store × Nat × List Ev
  | [], st, dl => (st, dl, [])
  | d :: ds, st, dl =>
    let s1 := downloadDate fetch st d
    let dl' := if s1.1 = .success then dl + 1 else dl
    let rest := processFallback fetch ds s1.2 dl'
    (rest.1, rest.2.1, Ev.attempt d s1.1 :: Ev.delay requestDelayMs :: rest.2.2)

/-- The `while (current.isSameOrBefore(end))` loop of
`HistoricalDownloader.run` over its date sequence (progress printing elided):
download, delay. -/
def histProcess (fetch : Nat → FetchEff) : List Nat → Store → Store × List Ev
  | [], st => (st, [])
  | d :: ds, st =>
    let s1 := histDownloadDate fetch st d
    let rest := histProcess fetch ds s1.2
    (rest.1, Ev.attempt d s1.1 :: Ev.delay histDelayMs :: rest.2)

/-- Ascending enumeration of the calendar dates `a .. b` inclusive (empty when
`a > b`), the sequence a `current = a; while current ≤ b; current += 1 day`
loop steps through. -/
def datesFromTo (a b : Nat) : List Nat :=
  (List.range (b + 1 - a)).map (fun k => a + k)

/-- Result of one `main()` run of `index.js`. -/
structure RunResult where
  store : Store
  counters : Counters
  trace : List Ev

/-- `main` of `index.js`.  `now` is `getBeijingTime().format('YYYYMMDD')` as a
day number.  If no latest asset date is found, download the 7 dates
`now, now - 1, ..., now - 6` (in that order).  Otherwise with latest date `L`:
when `daysBehind = now - L ≤ 0`, re-check `now` alone — and only when
`daysBehind` is exactly `0` and the file for `now` is missing; when
`daysBehind > 0`, fill `L+1 .. now` with the gap loop. -/
def mainRun (rootOk : Bool) (fetch : Nat → FetchEff) (st0 : Store) (now : Nat) :
    RunResult :=
  match findLatestAssetDate rootOk st0 with
  | none =>
    let r := processFallback fetch ((List.range 7).map (fun i => now - i)) st0 0
    ⟨r.1, ⟨r.2.1, 0, 0⟩, r.2.2⟩
  | some latest =>
    if (now : Int) - (latest : Int) ≤ 0 then
      if (now : Int) - (latest : Int) = 0 ∧ fileExists st0 now = false then
        let s1 := downloadDate fetch st0 now
        ⟨s1.2, ⟨0, 0, 0⟩, [Ev.attempt now s1.1]⟩
      else ⟨st0, ⟨0, 0, 0⟩, []⟩
    else
      let r := processGap fetch (datesFromTo (latest + 1) now) st0 ⟨0, 0, 0⟩
      ⟨r.1, r.2.1, r.2.2⟩

/-- `this.startDate = '20110101'` of the historical downloader. -/
def histStartDate : Nat := dayOfYmd 2011 1 1

/-- `this.endDate = '20120701'` default of the historical downloader (used
only when the store is empty). -/
def histDefaultEndDate : Nat := dayOfYmd 2012 7 1

/-- `HistoricalDownloader.run`: recompute the end boundary as one day before
the earliest existing record (when one exists), then walk the inclusive range
from the fixed start. -/
def histRun (fetch : Nat → FetchEff) (st0 : Store) : Store × List Ev :=
  let endD :=
    match findEarliestExistingRecord st0 with
    | some e => e - 1
    | none => histDefaultEndDate
  histProcess fetch (datesFromTo histStartDate endD) st0

/-- Dates of the attempt events of a trace, in order. -/
def attemptedOf (tr : List Ev) : List Nat :=
  tr.filterMap (fun e =>
    match e with
    | .attempt d _ => some d
    | .delay _ => none)

/-- Checks that a trace is a sequence of attempts each immediately followed by
a delay of `ms` milliseconds. -/
def alternatesWithDelay (ms : Nat) : List Ev → Bool
  | [] => true
  | Ev.attempt _ _ :: Ev.delay m :: rest => m == ms && alternatesWithDelay ms rest
  | _ => false

/-- An attempt event whose outcome the gap loop counts in `errors`
(`'error'` or `'nodata'`). -/
def evIsFailure : Ev → Bool
  | .attempt _ .error => true
  | .attempt _ .nodata => true
  | _ => false

/-- The translated body of `main()` never rejects: every throw site of the
source is behind a catch that the translation already applies (`loadData`
failures become `Outcome.error` inside `downloadDate`; a store-root read
failure becomes `none` inside `findLatestAssetDate`), so the `Except` layer of
`main().catch(...)` always carries `ok`. -/
def runSyncProcess (rootOk : Bool) (fetch : Nat → FetchEff) (st0 : Store) (now : Nat) :
    Except Unit RunResult :=
  Except.ok (mainRun rootOk fetch st0 now)

/-- `main().catch(error => process.exit(1))`: exit code 1 exactly when the
body rejected, 0 on normal completion. -/
def exitCodeOf : Except Unit RunResult → Nat
  | .ok _ => 0
  | .error _ => 1

/-! The archive indexer of `build.js` (`generateNewsIndex`). -/

/-- A delimiter of the tag-splitting regex `/[,\s]+/`: a comma or whitespace
(`Char.isWhitespace` covers space, tab, CR, LF — the whitespace that occurs in
the tag strings). -/
def isTagDelim (c : Char) : Bool := c == ',' || c.isWhitespace

/-- Splits a character list at every delimiter character, keeping empty pieces
(so `",a"` yields `["", "a"]`, exactly like JavaScript `split`; splitting on a
regex *run* `[,\s]+` differs from per-character splitting only in the empty
pieces, which the source filters out right afterwards). -/
def splitChars (p : Char → Bool) : List Char → List (List Char)
  | [] => [[]]
  | c :: cs =>
    let r := splitChars p cs
    if p c then [] :: r
    else
      match r with
      | [] => [[c]]
      | t :: ts => (c :: t) :: ts

/-- `news_hl_tag.split(/[,\s]+/).filter(cat => cat.trim())` — the non-empty
tag tokens of a tag string.  Tokens contain no delimiter characters, so the
source's later `trim()` is the identity on them. -/
def tagTokens (s : String) : List String :=
  ((splitChars isTagDelim s.data).map (fun l => String.mk l)).filter (fun t => t != "")

/-- `histogram[cat] = (histogram[cat] || 0) + 1`. -/
def bumpCat (m : String → Nat) (c : String) : String → Nat :=
  fun k => if k = c then m k + 1 else m k

/-- Per-item category accumulation: guarded by `if (video.news_hl_tag)`
(JavaScript truthiness: the empty string is skipped), then each token that is
non-empty and not the sentinel `"General"` is counted. -/
def addItemTags (m : String → Nat) (it : NewsItem) : String → Nat :=
  if it.news_hl_tag ≠ "" then
    ((tagTokens it.news_hl_tag).filter (fun c => c != "General")).foldl bumpCat m
  else m

/-- `data.videoList ? data.videoList.length : 0`. -/
def videoCount : Option (List NewsItem) → Nat
  | some l => l.length
  | none => 0

/-- `if (!index.dateRange.start || date < index.dateRange.start)` — running
minimum. -/
def optMin : Option Nat → Nat → Option Nat
  | none, d => some d
  | some s, d => some (Nat.min s d)

/-- `if (!index.dateRange.end || date > index.dateRange.end)` — running
maximum. -/
def optMax : Option Nat → Nat → Option Nat
  | none, d => some d
  | some s, d => some (Nat.max s d)

/-- Accumulator of the `generateNewsIndex` scan.  `dayEntries` stands for the
per-month `{date, newsCount, file}` summary entries (flattened, in scan
order); `warnings` is the list of dates whose file the `catch` logged a
read/parse warning for; `recentPool` is `index.recentNews` before the final
sort and truncation. -/
structure IndexAcc where
  totalNews : Nat
  dateStart : Option Nat
  dateEnd : Option Nat
  yearTotals : Nat → Nat
  categories : String → Nat
  recentPool : List (Nat × NewsItem)
  dayEntries : List (Nat × Nat)
  warnings : List Nat

/-- One file of the `generateNewsIndex` scan.  An unparseable file hits the
`catch (error)` branch: warn and move on, touching no aggregate.  A parseable
file contributes `videoCount` items (0 when `videoList` is absent — the
"wrong shape" case takes this path, with no warning), updates the date range,
is listed in its month, feeds the category histogram, and, when its date is
within the 30-day lookback (`moment().diff(...) <= 30`) and `videoList` is
present (JavaScript truthiness: any array, even empty), pours its items into
the recent pool. -/
def indexFile (now : Nat) (acc : IndexAcc) (f : Nat × FileContent) : IndexAcc :=
  match f.2 with
  | .unparseable => { acc with warnings := acc.warnings ++ [f.1] }
  | .parsed vl =>
    let n := videoCount vl
    { totalNews := acc.totalNews + n
      dateStart := optMin acc.dateStart f.1
      dateEnd := optMax acc.dateEnd f.1
      yearTotals := fun yv =>
        if yv = yearOf f.1 then acc.yearTotals yv + n else acc.yearTotals yv
      categories :=
        match vl with
        | some l => l.foldl addItemTags acc.categories
        | none => acc.categories
      recentPool :=
        if (now : Int) - (f.1 : Int) ≤ 30 ∧ vl.isSome then
          acc.recentPool ++ (vl.getD []).map (fun it => (f.1, it))
        else acc.recentPool
      dayEntries := acc.dayEntries ++ [(f.1, n)]
      warnings := acc.warnings }

/-- The empty aggregate `generateNewsIndex` starts from. -/
def initIndexAcc : IndexAcc :=
  ⟨0, none, none, fun _ => 0, fun _ => 0, [], [], []⟩

/-- The comparator `(a, b) => b.date.localeCompare(a.date)` — descending by
date (fixed-width date strings compare like day numbers). -/
def recentLe (a b : Nat × NewsItem) : Bool := decide (b.1 ≤ a.1)

/-- The finished index: the scan's aggregates, with the recent pool sorted
descending by date and truncated to the latest 100. -/
structure ArchiveIndex where
  totalNews : Nat
  dateStart : Option Nat
  dateEnd : Option Nat
  yearTotals : Nat → Nat
  categories : String → Nat
  recentNews : List (Nat × NewsItem)
  dayEntries : List (Nat × Nat)
  warnings : List Nat

/-- `generateNewsIndex` of `build.js`: fold the store's files into the
aggregate, then `recentNews.sort(...)` and `.slice(0, 100)`.  The store is
passed as the list of (date, content) files in enumeration order (`readdir`
order is unspecified for years; determinism over it is a theorem, not an
assumption). -/
def generateNewsIndex (now : Nat) (files : List (Nat × FileContent)) : ArchiveIndex :=
  let acc := files.foldl (indexFile now) initIndexAcc
  ⟨acc.totalNews, acc.dateStart, acc.dateEnd, acc.yearTotals, acc.categories,
    (acc.recentPool.mergeSort recentLe).take 100, acc.dayEntries, acc.warnings⟩

/-- Item count a file contributes to `totalNews`: an unparseable file is
skipped (0), a parsed file contributes its `videoCount`. -/
def fileCnt (f : Nat × FileContent) : Nat :=
  match f.2 with
  | .unparseable => 0
  | .parsed vl => videoCount vl

/-- How often token `t` is counted for one item: zero for an empty tag string,
otherwise its occurrences among the item's non-`"General"` tag tokens. -/
def itemCnt (t : String) (it : NewsItem) : Nat :=
  if it.news_hl_tag ≠ "" then
    ((tagTokens it.news_hl_tag).filter (fun c => c != "General")).count t
  else 0

/-- How often token `t` is counted for one file. -/
def catCnt (t : String) (f : Nat × FileContent) : Nat :=
  match f.2 with
  | .parsed (some l) => (l.map (itemCnt t)).sum
  | _ => 0

/-- Plain occurrence count of token `t` over one file's items (no sentinel
filtering) — the reference value for non-sentinel histogram keys. -/
def fileTagCount (t : String) (f : Nat × FileContent) : Nat :=
  match f.2 with
  | .parsed (some l) => (l.map (fun it => (tagTokens it.news_hl_tag).count t)).sum
  | _ => 0

/-- Selector for the dates the scan warns about. -/
def warnSel (f : Nat × FileContent) : Option Nat :=
  match f.2 with
  | .unparseable => some f.1
  | .parsed _ => none

/-- Selector for the per-month summary entries the scan emits. -/
def entrySel (f : Nat × FileContent) : Option (Nat × Nat) :=
  match f.2 with
  | .unparseable => none
  | .parsed vl => some (f.1, videoCount vl)

/-! Concrete fixtures for witnesses and counterexamples. -/

/-- A fetch collaborator that always writes an empty DayRecord. -/
def fetchEmptyWriter : Nat → FetchEff := fun _ => FetchEff.writes []

/-- A fetch collaborator that always throws. -/
def fetchAlwaysThrows : Nat → FetchEff := fun _ => FetchEff.throws

/-- Store whose only (hence latest) record is 2025-10-20. -/
def storeOct20 : Store := [(dayOfYmd 2025 10 20, FileContent.parsed (some []))]

/-- Store whose only record is 2025-10-23. -/
def storeOct23 : Store := [(dayOfYmd 2025 10 23, FileContent.parsed (some []))]

/-- Store whose only record is 2025-10-24 (a date after the 2025-10-23 "now"
used against it). -/
def storeOct24 : Store := [(dayOfYmd 2025 10 24, FileContent.parsed (some []))]

/-- Store containing exactly 2012-07-01 .. 2012-07-03. -/
def storeJul2012 : Store :=
  [(dayOfYmd 2012 7 1, FileContent.parsed (some [⟨"a", ""⟩])),
   (dayOfYmd 2012 7 2, FileContent.parsed (some [⟨"b", ""⟩])),
   (dayOfYmd 2012 7 3, FileContent.parsed (some [⟨"c", ""⟩]))]

/-- Two files: one parseable but of the wrong shape (no `videoList` field,
like `{"notVideoList": []}`), one well-formed with a single item. -/
def wrongShapeFiles : List (Nat × FileContent) :=
  [(dayOfYmd 2025 1 1, FileContent.parsed none),
   (dayOfYmd 2025 1 2, FileContent.parsed (some [⟨"t", "Economy"⟩]))]

/-- A store with tagged items, for histogram witnesses. -/
def catFiles : List (Nat × FileContent) :=
  [(dayOfYmd 2025 1 1, FileContent.parsed (some
      [⟨"a", "Economy, Policy"⟩, ⟨"b", "Economy"⟩, ⟨"c", "General"⟩, ⟨"e", ""⟩])),
   (dayOfYmd 2025 1 2, FileContent.parsed (some [⟨"d", " Policy,General "⟩]))]

/-! Helper lemmas about the crawler loops. -/

theorem attemptedOf_attempt (d : Nat) (r : Outcome) (tr : List Ev) :
    attemptedOf (Ev.attempt d r :: tr) = d :: attemptedOf tr := rfl

theorem attemptedOf_delay (m : Nat) (tr : List Ev) :
    attemptedOf (Ev.delay m :: tr) = attemptedOf tr := rfl

theorem processGap_trace (fetch : Nat → FetchEff) :
    ∀ (ds : List Nat) (st : Store) (c : Counters),
      attemptedOf (processGap fetch ds st c).2.2 = ds ∧
      alternatesWithDelay requestDelayMs (processGap fetch ds st c).2.2 = true := by
  intro ds
  induction ds with
  | nil => intro st c; exact ⟨rfl, rfl⟩
  | cons d ds ih =>
    intro st c
    have h := ih (downloadDate fetch st d).2 (bumpCounters c (downloadDate fetch st d).1)
    simp [processGap, attemptedOf_attempt, attemptedOf_delay, alternatesWithDelay, h.1, h.2]

theorem processFallback_trace (fetch : Nat → FetchEff) :
    ∀ (ds : List Nat) (st : Store) (dl : Nat),
      attemptedOf (processFallback fetch ds st dl).2.2 = ds ∧
      alternatesWithDelay requestDelayMs (processFallback fetch ds st dl).2.2 = true := by
  intro ds
  induction ds with
  | nil => intro st dl; exact ⟨rfl, rfl⟩
  | cons d ds ih =>
    intro st dl
    have h := ih (downloadDate fetch st d).2
      (if (downloadDate fetch st d).1 = .success then dl + 1 else dl)
    simp [processFallback, attemptedOf_attempt, attemptedOf_delay, alternatesWithDelay, h.1, h.2]

theorem histProcess_trace (fetch : Nat → FetchEff) :
    ∀ (ds : List Nat) (st : Store),
      attemptedOf (histProcess fetch ds st).2 = ds ∧
      alternatesWithDelay histDelayMs (histProcess fetch ds st).2 = true := by
  intro ds
  induction ds with
  | nil => intro st; exact ⟨rfl, rfl⟩
  | cons d ds ih =>
    intro st
    have h := ih (histDownloadDate fetch st d).2
    simp [histProcess, attemptedOf_attempt, attemptedOf_delay, alternatesWithDelay, h.1, h.2]

theorem processGap_errors (fetch : Nat → FetchEff) :
    ∀ (ds : List Nat) (st : Store) (c : Counters),
      (processGap fetch ds st c).2.1.errors
        = c.errors + List.countP evIsFailure (processGap fetch ds st c).2.2 := by
  intro ds
  induction ds with
  | nil => intro st c; simp [processGap]
  | cons d ds ih =>
    intro st c
    have h := ih (downloadDate fetch st d).2 (bumpCounters c (downloadDate fetch st d).1)
    cases hr : (downloadDate fetch st d).1 <;>
      rw [hr] at h <;>
      simp only [bumpCounters] at h <;>
      simp [processGap, h, hr, bumpCounters, evIsFailure, List.countP_cons] <;> omega

theorem storeLookup_insert_other (st : Store) (d1 d : Nat) (c : FileContent)
    (h : (d1 == d) = false) :
    storeLookup (storeInsert st d1 c) d = storeLookup st d := by
  simp only [storeLookup, storeInsert]
  rw [List.find?_cons_of_neg _ (by simp [h])]

theorem downloadDate_preserve (fetch : Nat → FetchEff) (st : Store) (d1 d : Nat)
    (x : FileContent) (h : storeLookup st d = some x) :
    storeLookup (downloadDate fetch st d1).2 d = some x ∧
    (d1 = d → (downloadDate fetch st d1).1 = Outcome.alreadyExists) := by
  cases hex : fileExists st d1 with
  | true => exact ⟨by simp [downloadDate, hex, h], fun _ => by simp [downloadDate, hex]⟩
  | false =>
    have hne : (d1 == d) = false := by
      apply beq_eq_false_iff_ne.mpr
      intro he
      rw [fileExists, he, h] at hex
      simp at hex
    constructor
    · cases hf : fetch d1 <;>
        simp [downloadDate, hex, hf, h, storeLookup_insert_other st d1 d _ hne]
    · intro he
      exfalso
      rw [fileExists, he, h] at hex
      simp at hex

theorem processGap_preserve (fetch : Nat → FetchEff) (d : Nat) (x : FileContent) :
    ∀ (ds : List Nat) (st : Store) (c : Counters), storeLookup st d = some x →
      storeLookup (processGap fetch ds st c).1 d = some x ∧
      ∀ r, Ev.attempt d r ∈ (processGap fetch ds st c).2.2 → r = Outcome.alreadyExists := by
  intro ds
  induction ds with
  | nil =>
    intro st c h
    exact ⟨h, by intro r hr; simp [processGap] at hr⟩
  | cons d1 ds ih =>
    intro st c h
    have hdp := downloadDate_preserve fetch st d1 d x h
    have hrec := ih (downloadDate fetch st d1).2 (bumpCounters c (downloadDate fetch st d1).1) hdp.1
    refine ⟨by simpa [processGap] using hrec.1, ?_⟩
    intro r hr
    simp only [processGap, List.mem_cons] at hr
    rcases hr with h1 | h1 | h1
    · rw [Ev.attempt.injEq] at h1
      rw [h1.2]
      exact hdp.2 h1.1.symm
    · cases h1
    · exact hrec.2 r h1

theorem processFallback_preserve (fetch : Nat → FetchEff) (d : Nat) (x : FileContent) :
    ∀ (ds : List Nat) (st : Store) (dl : Nat), storeLookup st d = some x →
      storeLookup (processFallback fetch ds st dl).1 d = some x ∧
      ∀ r, Ev.attempt d r ∈ (processFallback fetch ds st dl).2.2 →
        r = Outcome.alreadyExists := by
  intro ds
  induction ds with
  | nil =>
    intro st dl h
    exact ⟨h, by intro r hr; simp [processFallback] at hr⟩
  | cons d1 ds ih =>
    intro st dl h
    have hdp := downloadDate_preserve fetch st d1 d x h
    have hrec := ih (downloadDate fetch st d1).2
      (if (downloadDate fetch st d1).1 = .success then dl + 1 else dl) hdp.1
    refine ⟨by simpa [processFallback] using hrec.1, ?_⟩
    intro r hr
    simp only [processFallback, List.mem_cons] at hr
    rcases hr with h1 | h1 | h1
    · rw [Ev.attempt.injEq] at h1
      rw [h1.2]
      exact hdp.2 h1.1.symm
    · cases h1
    · exact hrec.2 r h1

theorem mainRun_no_refetch (rootOk : Bool) (fetch : Nat → FetchEff) (st0 : Store)
    (now d : Nat) (x : FileContent) (h : storeLookup st0 d = some x) :
    ∀ r, Ev.attempt d r ∈ (mainRun rootOk fetch st0 now).trace →
      r = Outcome.alreadyExists := by
  intro r hr
  unfold mainRun at hr
  cases hL : findLatestAssetDate rootOk st0 with
  | none =>
    simp only [hL] at hr
    exact (processFallback_preserve fetch d x _ st0 0 h).2 r hr
  | some latest =>
    simp only [hL] at hr
    by_cases h1 : (now : Int) - (latest : Int) ≤ 0
    · rw [if_pos h1] at hr
      by_cases h2 : ((now : Int) - (latest : Int) = 0 ∧ fileExists st0 now = false)
      · rw [if_pos h2] at hr
        simp only [List.mem_singleton, Ev.attempt.injEq] at hr
        rw [hr.2]
        exact (downloadDate_preserve fetch st0 now d x h).2 hr.1.symm
      · rw [if_neg h2] at hr
        simp at hr
    · rw [if_neg h1] at hr
      exact (processGap_preserve fetch d x _ st0 ⟨0, 0, 0⟩ h).2 r hr

/-! Helper lemmas about the indexer fold. -/

theorem foldIndex_totalNews (now : Nat) :
    ∀ (files : List (Nat × FileContent)) (acc : IndexAcc),
      (files.foldl (indexFile now) acc).totalNews
        = acc.totalNews + (files.map fileCnt).sum := by
  intro files
  induction files with
  | nil => intro acc; simp
  | cons f fs ih =>
    intro acc
    obtain ⟨fd, fc⟩ := f
    cases fc with
    | unparseable => simpa [indexFile, fileCnt] using ih _
    | parsed vl =>
      rw [List.foldl_cons, ih]
      simp [indexFile, fileCnt]
      omega

theorem foldIndex_yearTotals (now y : Nat) :
    ∀ (files : List (Nat × FileContent)) (acc : IndexAcc),
      (files.foldl (indexFile now) acc).yearTotals y
        = acc.yearTotals y
          + (files.map (fun f => if y = yearOf f.1 then fileCnt f else 0)).sum := by
  intro files
  induction files with
  | nil => intro acc; simp
  | cons f fs ih =>
    intro acc
    obtain ⟨fd, fc⟩ := f
    cases fc with
    | unparseable => simpa [indexFile, fileCnt] using ih _
    | parsed vl =>
      rw [List.foldl_cons, ih]
      by_cases hy : y = yearOf fd
      · simp [indexFile, fileCnt, hy]
        omega
      · simp [indexFile, fileCnt, hy]

theorem foldBump :
    ∀ (toks : List String) (m : String → Nat) (t : String),
      (toks.foldl bumpCat m) t = m t + toks.count t := by
  intro toks
  induction toks with
  | nil => intro m t; simp
  | cons c cs ih =>
    intro m t
    rw [List.foldl_cons, ih]
    by_cases h : t = c
    · subst h
      simp [bumpCat, List.count_cons]
      omega
    · have hbeq : (c == t) = false := beq_eq_false_iff_ne.mpr (fun hh => h hh.symm)
      simp [bumpCat, List.count_cons, h, hbeq]

theorem addItemTags_apply (m : String → Nat) (it : NewsItem) (t : String) :
    addItemTags m it t = m t + itemCnt t it := by
  unfold addItemTags itemCnt
  by_cases h : it.news_hl_tag = ""
  · simp [h]
  · simp [h, foldBump]

theorem foldTags :
    ∀ (l : List NewsItem) (m : String → Nat) (t : String),
      (l.foldl addItemTags m) t = m t + (l.map (itemCnt t)).sum := by
  intro l
  induction l with
  | nil => intro m t; simp
  | cons it its ih =>
    intro m t
    rw [List.foldl_cons, ih, addItemTags_apply]
    simp only [List.map_cons, List.sum_cons]
    omega

theorem foldIndex_categories (now : Nat) (t : String) :
    ∀ (files : List (Nat × FileContent)) (acc : IndexAcc),
      (files.foldl (indexFile now) acc).categories t
        = acc.categories t + (files.map (catCnt t)).sum := by
  intro files
  induction files with
  | nil => intro acc; simp
  | cons f fs ih =>
    intro acc
    obtain ⟨fd, fc⟩ := f
    cases fc with
    | unparseable => simpa [indexFile, catCnt] using ih _
    | parsed vl =>
      rw [List.foldl_cons, ih]
      cases vl with
      | none => simp [indexFile, catCnt]
      | some l => simp [indexFile, catCnt, foldTags]; omega

theorem foldIndex_warnings (now : Nat) :
    ∀ (files : List (Nat × FileContent)) (acc : IndexAcc),
      (files.foldl (indexFile now) acc).warnings
        = acc.warnings ++ files.filterMap warnSel := by
  intro files
  induction files with
  | nil => intro acc; simp
  | cons f fs ih =>
    intro acc
    obtain ⟨fd, fc⟩ := f
    cases fc with
    | unparseable => simp [indexFile, warnSel, ih _, List.filterMap_cons]
    | parsed vl => simp [indexFile, warnSel, ih _, List.filterMap_cons]

theorem foldIndex_dayEntries (now : Nat) :
    ∀ (files : List (Nat × FileContent)) (acc : IndexAcc),
      (files.foldl (indexFile now) acc).dayEntries
        = acc.dayEntries ++ files.filterMap entrySel := by
  intro files
  induction files with
  | nil => intro acc; simp
  | cons f fs ih =>
    intro acc
    obtain ⟨fd, fc⟩ := f
    cases fc with
    | unparseable => simp [indexFile, entrySel, ih _, List.filterMap_cons]
    | parsed vl => simp [indexFile, entrySel, ih _, List.filterMap_cons]

theorem foldIndex_recentPool (now : Nat) :
    ∀ (files : List (Nat × FileContent)) (acc : IndexAcc) (x : Nat × NewsItem),
      x ∈ (files.foldl (indexFile now) acc).recentPool →
        x ∈ acc.recentPool ∨ (now : Int) - (x.1 : Int) ≤ 30 := by
  intro files
  induction files with
  | nil => intro acc x hx; exact Or.inl hx
  | cons f fs ih =>
    intro acc x hx
    rw [List.foldl_cons] at hx
    rcases ih (indexFile now acc f) x hx with hmem | hb
    · obtain ⟨fd, fc⟩ := f
      cases fc with
      | unparseable => exact Or.inl (by simpa [indexFile] using hmem)
      | parsed vl =>
        simp only [indexFile] at hmem
        by_cases hc : ((now : Int) - (fd : Int) ≤ 30 ∧ vl.isSome = true)
        · rw [if_pos hc] at hmem
          rcases List.mem_append.mp hmem with hl | hr
          · exact Or.inl hl
          · obtain ⟨it, _, hx1⟩ := List.mem_map.mp hr
            right
            rw [← hx1]
            exact hc.1
        · rw [if_neg hc] at hmem
          exact Or.inl hmem
    · exact Or.inr hb

/-! Bridging lemmas from the indexer fold to `generateNewsIndex`. -/

theorem index_totalNews_char (now : Nat) (files : List (Nat × FileContent)) :
    (generateNewsIndex now files).totalNews = (files.map fileCnt).sum := by
  unfold generateNewsIndex
  simpa [initIndexAcc] using foldIndex_totalNews now files initIndexAcc

theorem index_yearTotals_char (now y : Nat) (files : List (Nat × FileContent)) :
    (generateNewsIndex now files).yearTotals y
      = (files.map (fun f => if y = yearOf f.1 then fileCnt f else 0)).sum := by
  unfold generateNewsIndex
  simpa [initIndexAcc] using foldIndex_yearTotals now y files initIndexAcc

theorem index_categories_char (now : Nat) (t : String) (files : List (Nat × FileContent)) :
    (generateNewsIndex now files).categories t = (files.map (catCnt t)).sum := by
  unfold generateNewsIndex
  simpa [initIndexAcc] using foldIndex_categories now t files initIndexAcc

theorem index_recentNews_eq (now : Nat) (files : List (Nat × FileContent)) :
    (generateNewsIndex now files).recentNews
      = ((files.foldl (indexFile now) initIndexAcc).recentPool.mergeSort recentLe).take 100 :=
  rfl

theorem itemCnt_general (it : NewsItem) : itemCnt "General" it = 0 := by
  by_cases h : it.news_hl_tag = ""
  · simp [itemCnt, h]
  · unfold itemCnt
    rw [if_pos (by simpa using h), List.count_eq_zero]
    intro hmem
    have h2 := (List.mem_filter.mp hmem).2
    simp at h2

theorem itemCnt_emptyKey (it : NewsItem) : itemCnt "" it = 0 := by
  by_cases h : it.news_hl_tag = ""
  · simp [itemCnt, h]
  · unfold itemCnt
    rw [if_pos (by simpa using h), List.count_eq_zero]
    intro hmem
    have h1 := (List.mem_filter.mp hmem).1
    simp only [tagTokens] at h1
    have h2 := (List.mem_filter.mp h1).2
    simp at h2

theorem itemCnt_eq_count (t : String) (h1 : t ≠ "General") (it : NewsItem) :
    itemCnt t it = (tagTokens it.news_hl_tag).count t := by
  by_cases h : it.news_hl_tag = ""
  · rw [h]
    simp [itemCnt, h, show tagTokens "" = [] from rfl]
  · unfold itemCnt
    rw [if_pos (by simpa using h)]
    exact List.count_filter (by simp [h1])

theorem catCnt_general (f : Nat × FileContent) : catCnt "General" f = 0 := by
  obtain ⟨fd, fc⟩ := f
  cases fc with
  | unparseable => rfl
  | parsed vl =>
    cases vl with
    | none => rfl
    | some l =>
      apply List.sum_eq_zero
      intro x hx
      obtain ⟨it, _, hfe⟩ := List.mem_map.mp hx
      rw [← hfe]
      exact itemCnt_general it

theorem catCnt_emptyKey (f : Nat × FileContent) : catCnt "" f = 0 := by
  obtain ⟨fd, fc⟩ := f
  cases fc with
  | unparseable => rfl
  | parsed vl =>
    cases vl with
    | none => rfl
    | some l =>
      apply List.sum_eq_zero
      intro x hx
      obtain ⟨it, _, hfe⟩ := List.mem_map.mp hx
      rw [← hfe]
      exact itemCnt_emptyKey it

theorem catCnt_eq_fileTagCount (t : String) (h1 : t ≠ "General") (f : Nat × FileContent) :
    catCnt t f = fileTagCount t f := by
  obtain ⟨fd, fc⟩ := f
  cases fc with
  | unparseable => rfl
  | parsed vl =>
    cases vl with
    | none => rfl
    | some l =>
      show (l.map (itemCnt t)).sum = (l.map (fun it => (tagTokens it.news_hl_tag).count t)).sum
      congr 1
      apply List.map_congr_left
      intro it _
      exact itemCnt_eq_count t h1 it

/-! Claim theorems. -/

/-- Claim C1: the day-to-day sync entry point, with no latest known date,
attempts exactly the fixed 7-day fallback window of dates ending at "now"
(stated as: the attempted dates are precisely those in `[now - 6, now]`);
otherwise, with latest known date `L` strictly before "now", it attempts
exactly the dates `L+1 .. now` inclusive, one per day in ascending calendar
order, with the fixed delay between consecutive dates. -/
theorem daySync_gap_window (fetch : Nat → FetchEff) (st0 : Store) (now latest : Nat) :
    (6 ≤ now → findLatestAssetDate true st0 = none →
      ∀ dd : Nat,
        dd ∈ attemptedOf (mainRun true fetch st0 now).trace ↔
          now - 6 ≤ dd ∧ dd ≤ now) ∧
    (findLatestAssetDate true st0 = some latest → latest < now →
      attemptedOf (mainRun true fetch st0 now).trace = datesFromTo (latest + 1) now ∧
      alternatesWithDelay requestDelayMs (mainRun true fetch st0 now).trace = true) := by
  constructor
  · intro h6 hL dd
    unfold mainRun
    simp only [hL]
    rw [(processFallback_trace fetch _ st0 0).1]
    simp only [List.mem_map, List.mem_range]
    constructor
    · rintro ⟨i, hi, rfl⟩
      omega
    · intro hb
      exact ⟨now - dd, by omega, by omega⟩
  · intro hL hlt
    unfold mainRun
    simp only [hL]
    rw [if_neg (by omega : ¬ ((now : Int) - (latest : Int) ≤ 0))]
    exact ⟨(processGap_trace fetch _ st0 ⟨0, 0, 0⟩).1,
           (processGap_trace fetch _ st0 ⟨0, 0, 0⟩).2⟩

/-- Witness for C1, on the spec's own scenario: latest stored date
2025-10-20, "now" 2025-10-23 — the run attempts exactly 2025-10-21,
2025-10-22, 2025-10-23 in that order, delay after each. -/
theorem daySync_gap_window_witness :
    (findLatestAssetDate true storeOct20 = some (dayOfYmd 2025 10 20) ∧
      dayOfYmd 2025 10 20 < dayOfYmd 2025 10 23) ∧
    (attemptedOf (mainRun true fetchEmptyWriter storeOct20 (dayOfYmd 2025 10 23)).trace
        = datesFromTo (dayOfYmd 2025 10 20 + 1) (dayOfYmd 2025 10 23) ∧
      alternatesWithDelay requestDelayMs
        (mainRun true fetchEmptyWriter storeOct20 (dayOfYmd 2025 10 23)).trace = true) ∧
    datesFromTo (dayOfYmd 2025 10 20 + 1) (dayOfYmd 2025 10 23)
      = [dayOfYmd 2025 10 21, dayOfYmd 2025 10 22, dayOfYmd 2025 10 23] :=
  ⟨⟨by decide, by decide⟩,
   (daySync_gap_window fetchEmptyWriter storeOct20 (dayOfYmd 2025 10 23)
      (dayOfYmd 2025 10 20)).2 (by decide) (by decide),
   by decide⟩

/-- Claim C10 (implicit): in the empty-store fallback branch, the 7 candidate
dates are attempted in descending calendar order `now, now-1, ..., now-6` —
the reverse of the ascending enumeration the gap loop would use for the same
window — with the same fixed delay after each attempt. -/
theorem daySync_fallback_descending (fetch : Nat → FetchEff) (st0 : Store) (now : Nat)
    (h6 : 6 ≤ now) (hL : findLatestAssetDate true st0 = none) :
    attemptedOf (mainRun true fetch st0 now).trace
      = (List.range 7).map (fun i => now - i) ∧
    List.Pairwise (fun a b => b < a) (attemptedOf (mainRun true fetch st0 now).trace) ∧
    (attemptedOf (mainRun true fetch st0 now).trace).reverse
      = datesFromTo (now - 6) now ∧
    alternatesWithDelay requestDelayMs (mainRun true fetch st0 now).trace = true := by
  have hr7 : List.range 7 = [0, 1, 2, 3, 4, 5, 6] := by decide
  have htr : attemptedOf (mainRun true fetch st0 now).trace
      = (List.range 7).map (fun i => now - i) := by
    unfold mainRun
    simp only [hL]
    exact (processFallback_trace fetch _ st0 0).1
  have halt : alternatesWithDelay requestDelayMs (mainRun true fetch st0 now).trace = true := by
    unfold mainRun
    simp only [hL]
    exact (processFallback_trace fetch _ st0 0).2
  refine ⟨htr, ?_, ?_, halt⟩
  · rw [htr, hr7]
    simp only [List.map_cons, List.map_nil]
    simp [List.pairwise_cons]
    omega
  · rw [htr, hr7]
    unfold datesFromTo
    rw [show now + 1 - (now - 6) = 7 from by omega, hr7]
    simp only [List.map_cons, List.map_nil, List.reverse_cons, List.reverse_nil,
      List.nil_append, List.cons_append, List.cons.injEq, and_true]
    omega

/-- Witness for C10: with an empty store and "now" 2025-10-23, the fallback
attempts exactly the 7 dates 2025-10-23 down to 2025-10-17, in that order. -/
theorem daySync_fallback_descending_witness :
    (6 ≤ dayOfYmd 2025 10 23 ∧ findLatestAssetDate true [] = none) ∧
    (attemptedOf (mainRun true fetchEmptyWriter [] (dayOfYmd 2025 10 23)).trace
        = (List.range 7).map (fun i => dayOfYmd 2025 10 23 - i) ∧
      List.Pairwise (fun a b => b < a)
        (attemptedOf (mainRun true fetchEmptyWriter [] (dayOfYmd 2025 10 23)).trace) ∧
      (attemptedOf (mainRun true fetchEmptyWriter [] (dayOfYmd 2025 10 23)).trace).reverse
        = datesFromTo (dayOfYmd 2025 10 23 - 6) (dayOfYmd 2025 10 23) ∧
      alternatesWithDelay requestDelayMs
        (mainRun true fetchEmptyWriter [] (dayOfYmd 2025 10 23)).trace = true) ∧
    attemptedOf (mainRun true fetchEmptyWriter [] (dayOfYmd 2025 10 23)).trace
      = [dayOfYmd 2025 10 23, dayOfYmd 2025 10 22, dayOfYmd 2025 10 21,
         dayOfYmd 2025 10 20, dayOfYmd 2025 10 19, dayOfYmd 2025 10 18,
         dayOfYmd 2025 10 17] :=
  ⟨⟨by decide, by decide⟩,
   daySync_fallback_descending fetchEmptyWriter [] (dayOfYmd 2025 10 23)
     (by decide) (by decide),
   by decide⟩

/-- Counterexample to C3 as stated: with store `{2025-10-24}` and "now" =
2025-10-23 we have `L ≥ now` and no record for "now", yet the run attempts
nothing — it does not re-check "now" (the source only re-checks when
`daysBehind === 0`, i.e. `L = now`). -/
theorem daySync_recheck_counterexample :
    findLatestAssetDate true storeOct24 = some (dayOfYmd 2025 10 24) ∧
    dayOfYmd 2025 10 23 ≤ dayOfYmd 2025 10 24 ∧
    fileExists storeOct24 (dayOfYmd 2025 10 23) = false ∧
    attemptedOf (mainRun true fetchEmptyWriter storeOct24 (dayOfYmd 2025 10 23)).trace = [] ∧
    attemptedOf (mainRun true fetchEmptyWriter storeOct24 (dayOfYmd 2025 10 23)).trace
      ≠ [dayOfYmd 2025 10 23] := by
  decide

/-- Claim C3 as amended: when `L ≥ now`, the day-sync run attempts the single
date "now" exactly when `L = now` and "now" is not yet stored; in every other
such case (including `L > now` with "now" missing) it attempts nothing. -/
theorem daySync_recheck_amended (fetch : Nat → FetchEff) (st0 : Store) (now latest : Nat)
    (hL : findLatestAssetDate true st0 = some latest) (hge : now ≤ latest) :
    attemptedOf (mainRun true fetch st0 now).trace
      = if latest = now ∧ fileExists st0 now = false then [now] else [] := by
  unfold mainRun
  simp only [hL]
  rw [if_pos (by omega : (now : Int) - (latest : Int) ≤ 0)]
  by_cases h2 : ((now : Int) - (latest : Int) = 0 ∧ fileExists st0 now = false)
  · rw [if_pos h2, if_pos (⟨by omega, h2.2⟩ : latest = now ∧ fileExists st0 now = false)]
    simp [attemptedOf]
  · rw [if_neg h2, if_neg (fun hcon : latest = now ∧ fileExists st0 now = false =>
      h2 ⟨by omega, hcon.2⟩)]
    simp [attemptedOf]

/-- Witness for the amended C3: store `{2025-10-23}` with "now" = 2025-10-23:
`L = now`, the record exists, and the run is a no-op. -/
theorem daySync_recheck_amended_witness :
    (findLatestAssetDate true storeOct23 = some (dayOfYmd 2025 10 23) ∧
      dayOfYmd 2025 10 23 ≤ dayOfYmd 2025 10 23) ∧
    attemptedOf (mainRun true fetchEmptyWriter storeOct23 (dayOfYmd 2025 10 23)).trace
      = (if dayOfYmd 2025 10 23 = dayOfYmd 2025 10 23 ∧
            fileExists storeOct23 (dayOfYmd 2025 10 23) = false
         then [dayOfYmd 2025 10 23] else []) ∧
    attemptedOf (mainRun true fetchEmptyWriter storeOct23 (dayOfYmd 2025 10 23)).trace = [] :=
  ⟨⟨by decide, by decide⟩,
   daySync_recheck_amended fetchEmptyWriter storeOct23 (dayOfYmd 2025 10 23)
     (dayOfYmd 2025 10 23) (by decide) (by decide),
   by decide⟩

/-- Claim C2: a fetch that succeeds but yields zero items is classified by the
downloader as its own terminal outcome (`'nodata'`, counted in the separate
no-data counter), distinct from the `'error'` outcome; the empty DayRecord is
written to the store, the date then exists, and a second sync run does not
re-fetch it (every attempt of that date in a later `main()` run short-circuits
to `'exists'` before `loadData` is called). -/
theorem emptyFetch_stored (fetch : Nat → FetchEff) (st : Store) (d now : Nat)
    (h1 : storeLookup st d = none) (h2 : fetch d = FetchEff.writes []) :
    (histDownloadDate fetch st d).1 = Outcome.nodata ∧
    Outcome.nodata ≠ Outcome.error ∧
    storeLookup (histDownloadDate fetch st d).2 d = some (FileContent.parsed (some [])) ∧
    fileExists (histDownloadDate fetch st d).2 d = true ∧
    (∀ r, Ev.attempt d r ∈ (mainRun true fetch (histDownloadDate fetch st d).2 now).trace →
      r = Outcome.alreadyExists) := by
  have hex : fileExists st d = false := by simp [fileExists, h1]
  have hdd : histDownloadDate fetch st d
      = (Outcome.nodata, storeInsert st d (FileContent.parsed (some []))) := by
    simp [histDownloadDate, hex, h2]
  rw [hdd]
  have hlook : storeLookup (storeInsert st d (FileContent.parsed (some []))) d
      = some (FileContent.parsed (some [])) := by
    simp [storeLookup, storeInsert, List.find?_cons]
  refine ⟨rfl, by decide, hlook, by simp [fileExists, hlook], ?_⟩
  exact mainRun_no_refetch true fetch _ now d _ hlook

/-- Witness for C2, on the spec's scenario date 2025-01-01 over an empty
store. -/
theorem emptyFetch_stored_witness :
    (storeLookup [] (dayOfYmd 2025 1 1) = none ∧
      fetchEmptyWriter (dayOfYmd 2025 1 1) = FetchEff.writes []) ∧
    ((histDownloadDate fetchEmptyWriter [] (dayOfYmd 2025 1 1)).1 = Outcome.nodata ∧
      Outcome.nodata ≠ Outcome.error ∧
      storeLookup (histDownloadDate fetchEmptyWriter [] (dayOfYmd 2025 1 1)).2
          (dayOfYmd 2025 1 1) = some (FileContent.parsed (some [])) ∧
      fileExists (histDownloadDate fetchEmptyWriter [] (dayOfYmd 2025 1 1)).2
          (dayOfYmd 2025 1 1) = true ∧
      (∀ r, Ev.attempt (dayOfYmd 2025 1 1) r ∈
          (mainRun true fetchEmptyWriter
            (histDownloadDate fetchEmptyWriter [] (dayOfYmd 2025 1 1)).2
            (dayOfYmd 2025 1 2)).trace →
        r = Outcome.alreadyExists)) :=
  ⟨⟨rfl, rfl⟩,
   emptyFetch_stored fetchEmptyWriter [] (dayOfYmd 2025 1 1) (dayOfYmd 2025 1 2) rfl rfl⟩

/-- Equation lemma: with a non-empty store of earliest date `e`, the
historical run walks `histStartDate .. e - 1`. -/
theorem histRun_eq_some (fetch : Nat → FetchEff) (st : Store) (e : Nat)
    (hE : findEarliestExistingRecord st = some e) :
    histRun fetch st = histProcess fetch (datesFromTo histStartDate (e - 1)) st := by
  unfold histRun
  rw [hE]

/-- Claim C8: with a non-empty store, historical backfill sets its end
boundary to one day before the earliest stored date and attempts every date
from the fixed start through that end inclusive, sequentially in ascending
order (with the fixed delay); the number of processed dates is
`earliest - start`. -/
theorem histBackfill_range (fetch : Nat → FetchEff) (st : Store) (e : Nat)
    (hE : findEarliestExistingRecord st = some e) :
    attemptedOf (histRun fetch st).2 = datesFromTo histStartDate (e - 1) ∧
    List.Pairwise (fun a b => a < b) (attemptedOf (histRun fetch st).2) ∧
    alternatesWithDelay histDelayMs (histRun fetch st).2 = true ∧
    (histStartDate ≤ e →
      (attemptedOf (histRun fetch st).2).length = e - histStartDate) := by
  have hrw := histRun_eq_some fetch st e hE
  have htr : attemptedOf (histRun fetch st).2 = datesFromTo histStartDate (e - 1) := by
    rw [hrw]
    exact (histProcess_trace fetch _ st).1
  have halt : alternatesWithDelay histDelayMs (histRun fetch st).2 = true := by
    rw [hrw]
    exact (histProcess_trace fetch _ st).2
  refine ⟨htr, ?_, halt, ?_⟩
  · rw [htr]
    unfold datesFromTo
    rw [List.pairwise_map]
    refine (List.pairwise_lt_range _).imp ?_
    intro a b hab
    show histStartDate + a < histStartDate + b
    omega
  · intro hse
    rw [htr]
    unfold datesFromTo
    simp only [List.length_map, List.length_range]
    have h0 : 1 ≤ histStartDate := by decide
    omega

/-- Witness for C8, on the spec's scenario: store containing only
2012-07-01..2012-07-03 — the backfill attempts exactly the 547 dates
2011-01-01 .. 2012-06-30. -/
theorem histBackfill_range_witness :
    (findEarliestExistingRecord storeJul2012 = some (dayOfYmd 2012 7 1) ∧
      histStartDate ≤ dayOfYmd 2012 7 1) ∧
    attemptedOf (histRun fetchEmptyWriter storeJul2012).2
      = datesFromTo histStartDate (dayOfYmd 2012 7 1 - 1) ∧
    (attemptedOf (histRun fetchEmptyWriter storeJul2012).2).length
      = dayOfYmd 2012 7 1 - histStartDate ∧
    dayOfYmd 2012 7 1 - histStartDate = 547 ∧
    dayOfYmd 2012 7 1 - 1 = dayOfYmd 2012 6 30 :=
  ⟨⟨by decide, by decide⟩,
   (histBackfill_range fetchEmptyWriter storeJul2012 (dayOfYmd 2012 7 1) (by decide)).1,
   (histBackfill_range fetchEmptyWriter storeJul2012 (dayOfYmd 2012 7 1)
      (by decide)).2.2.2 (by decide),
   by decide, by decide⟩

/-- Counterexample to C9 as stated: an unreadable store root (`rootOk =
false`, the `readdir` failure the claim cites as the fatal exit-1 case) does
NOT exit 1 — `findLatestAssetDate` catches it and returns null, the 7-day
fallback runs, and the process exits 0. -/
theorem daySync_exit_counterexample :
    exitCodeOf (runSyncProcess false fetchAlwaysThrows [] (dayOfYmd 2025 10 23)) = 0 ∧
    exitCodeOf (runSyncProcess false fetchAlwaysThrows [] (dayOfYmd 2025 10 23)) ≠ 1 ∧
    attemptedOf (mainRun false fetchAlwaysThrows [] (dayOfYmd 2025 10 23)).trace
      = (List.range 7).map (fun i => dayOfYmd 2025 10 23 - i) := by
  decide

/-- Claim C9 as amended: the sync entry point exits 0 for every modeled input
— per-date errors (and even an unreadable store root) are caught internally;
in the gap branch every date of the gap is attempted no matter how fetches
fail, and the `errors` counter records exactly the attempts with `'error'` or
`'nodata'` outcome. -/
theorem daySync_exit_code (rootOk : Bool) (fetch : Nat → FetchEff) (st0 : Store)
    (now latest : Nat) :
    exitCodeOf (runSyncProcess rootOk fetch st0 now) = 0 ∧
    (findLatestAssetDate rootOk st0 = some latest → latest < now →
      attemptedOf (mainRun rootOk fetch st0 now).trace = datesFromTo (latest + 1) now ∧
      (mainRun rootOk fetch st0 now).counters.errors
        = List.countP evIsFailure (mainRun rootOk fetch st0 now).trace) := by
  refine ⟨rfl, ?_⟩
  intro hL hlt
  unfold mainRun
  simp only [hL]
  rw [if_neg (by omega : ¬ ((now : Int) - (latest : Int) ≤ 0))]
  refine ⟨(processGap_trace fetch _ st0 ⟨0, 0, 0⟩).1, ?_⟩
  simpa using processGap_errors fetch (datesFromTo (latest + 1) now) st0 ⟨0, 0, 0⟩

/-- Witness for the amended C9: a fetch collaborator that throws on every date
still yields exit code 0, attempts the whole 3-day gap, and records 3
errors. -/
theorem daySync_exit_code_witness :
    (findLatestAssetDate true storeOct20 = some (dayOfYmd 2025 10 20) ∧
      dayOfYmd 2025 10 20 < dayOfYmd 2025 10 23) ∧
    (exitCodeOf (runSyncProcess true fetchAlwaysThrows storeOct20 (dayOfYmd 2025 10 23)) = 0 ∧
      (attemptedOf (mainRun true fetchAlwaysThrows storeOct20 (dayOfYmd 2025 10 23)).trace
          = datesFromTo (dayOfYmd 2025 10 20 + 1) (dayOfYmd 2025 10 23) ∧
        (mainRun true fetchAlwaysThrows storeOct20 (dayOfYmd 2025 10 23)).counters.errors
          = List.countP evIsFailure
              (mainRun true fetchAlwaysThrows storeOct20 (dayOfYmd 2025 10 23)).trace)) ∧
    (mainRun true fetchAlwaysThrows storeOct20 (dayOfYmd 2025 10 23)).counters.errors = 3 :=
  ⟨⟨by decide, by decide⟩,
   ⟨(daySync_exit_code true fetchAlwaysThrows storeOct20 (dayOfYmd 2025 10 23)
       (dayOfYmd 2025 10 20)).1,
    (daySync_exit_code true fetchAlwaysThrows storeOct20 (dayOfYmd 2025 10 23)
       (dayOfYmd 2025 10 20)).2 (by decide) (by decide)⟩,
   by decide⟩

/-- Claim C4: the index's `totalNews` equals the sum of the item counts
(`videoList` lengths) of all successfully parsed persisted DayRecords, and
rebuilding over an unchanged store — any re-enumeration (permutation) of the
same files, since `readdir` order is unspecified — produces identical
aggregate counts: same `totalNews`, same per-year totals, same category
counts. -/
theorem index_total_deterministic (now : Nat) (files files2 : List (Nat × FileContent))
    (hperm : files.Perm files2) :
    (generateNewsIndex now files).totalNews = (files.map fileCnt).sum ∧
    (generateNewsIndex now files).totalNews = (generateNewsIndex now files2).totalNews ∧
    (∀ y, (generateNewsIndex now files).yearTotals y
        = (generateNewsIndex now files2).yearTotals y) ∧
    (∀ t, (generateNewsIndex now files).categories t
        = (generateNewsIndex now files2).categories t) := by
  refine ⟨index_totalNews_char now files, ?_, ?_, ?_⟩
  · rw [index_totalNews_char, index_totalNews_char]
    exact (hperm.map fileCnt).sum_eq
  · intro y
    rw [index_yearTotals_char, index_yearTotals_char]
    exact (hperm.map _).sum_eq
  · intro t
    rw [index_categories_char, index_categories_char]
    exact (hperm.map _).sum_eq

/-- Witness for C4, on a concrete store scanned in two different orders. -/
theorem index_total_deterministic_witness :
    catFiles.Perm catFiles.reverse ∧
    ((generateNewsIndex (dayOfYmd 2025 1 10) catFiles).totalNews
        = (catFiles.map fileCnt).sum ∧
      (generateNewsIndex (dayOfYmd 2025 1 10) catFiles).totalNews
        = (generateNewsIndex (dayOfYmd 2025 1 10) catFiles.reverse).totalNews ∧
      (∀ y, (generateNewsIndex (dayOfYmd 2025 1 10) catFiles).yearTotals y
          = (generateNewsIndex (dayOfYmd 2025 1 10) catFiles.reverse).yearTotals y) ∧
      (∀ t, (generateNewsIndex (dayOfYmd 2025 1 10) catFiles).categories t
          = (generateNewsIndex (dayOfYmd 2025 1 10) catFiles.reverse).categories t)) ∧
    (generateNewsIndex (dayOfYmd 2025 1 10) catFiles).totalNews = 5 :=
  ⟨by decide,
   index_total_deterministic (dayOfYmd 2025 1 10) catFiles catFiles.reverse (by decide),
   by decide⟩

/-- Claim C5: for any input files (hence any combination of tag names, commas
and whitespace in tag strings), the category histogram gives count 0 to the
sentinel `"General"` and to the empty string — they are never keys — and any
other token's count is exactly its number of occurrences among the items' tag
tokens. -/
theorem index_categories_clean (now : Nat) (files : List (Nat × FileContent)) (t : String) :
    (generateNewsIndex now files).categories "General" = 0 ∧
    (generateNewsIndex now files).categories "" = 0 ∧
    (t ≠ "General" → t ≠ "" →
      (generateNewsIndex now files).categories t = (files.map (fileTagCount t)).sum) := by
  refine ⟨?_, ?_, ?_⟩
  · rw [index_categories_char]
    apply List.sum_eq_zero
    intro x hx
    obtain ⟨f, _, hfe⟩ := List.mem_map.mp hx
    rw [← hfe]
    exact catCnt_general f
  · rw [index_categories_char]
    apply List.sum_eq_zero
    intro x hx
    obtain ⟨f, _, hfe⟩ := List.mem_map.mp hx
    rw [← hfe]
    exact catCnt_emptyKey f
  · intro h1 _
    rw [index_categories_char]
    congr 1
    apply List.map_congr_left
    intro f _
    exact catCnt_eq_fileTagCount t h1 f

/-- Witness for C5, on a store whose tag strings mix commas, spaces, the
sentinel and empty tags: "Economy" is counted per occurrence (2), while
"General" and "" have count 0. -/
theorem index_categories_clean_witness :
    (("Economy" : String) ≠ "General" ∧ ("Economy" : String) ≠ "") ∧
    (generateNewsIndex (dayOfYmd 2025 1 10) catFiles).categories "Economy"
      = (catFiles.map (fileTagCount "Economy")).sum ∧
    (generateNewsIndex (dayOfYmd 2025 1 10) catFiles).categories "Economy" = 2 ∧
    (generateNewsIndex (dayOfYmd 2025 1 10) catFiles).categories "Policy" = 2 ∧
    (generateNewsIndex (dayOfYmd 2025 1 10) catFiles).categories "General" = 0 ∧
    (generateNewsIndex (dayOfYmd 2025 1 10) catFiles).categories "" = 0 :=
  ⟨⟨by decide, by decide⟩,
   (index_categories_clean (dayOfYmd 2025 1 10) catFiles "Economy").2.2
     (by decide) (by decide),
   by decide, by decide, by decide, by decide⟩

/-- Claim C6: the recent-news list is sorted descending by date (each entry's
date is ≥ the next one's), has length at most 100, and contains no item dated
more than the fixed 30-day lookback before the indexing run's current date
(`all` entries satisfy `now - date ≤ 30` over the integers). -/
theorem index_recent_window (now : Nat) (files : List (Nat × FileContent)) :
    (generateNewsIndex now files).recentNews.length ≤ 100 ∧
    List.Pairwise (fun a b => b.1 ≤ a.1) (generateNewsIndex now files).recentNews ∧
    (generateNewsIndex now files).recentNews.all
      (fun x => decide ((now : Int) - (x.1 : Int) ≤ 30)) = true := by
  rw [index_recentNews_eq]
  refine ⟨?_, ?_, ?_⟩
  · rw [List.length_take]
    omega
  · have htrans : ∀ a b c : Nat × NewsItem,
        recentLe a b = true → recentLe b c = true → recentLe a c = true := by
      intro a b c hab hbc
      simp only [recentLe, decide_eq_true_eq] at hab hbc ⊢
      omega
    have htotal : ∀ a b : Nat × NewsItem, (recentLe a b || recentLe b a) = true := by
      intro a b
      simp only [recentLe, Bool.or_eq_true, decide_eq_true_eq]
      omega
    have hs := List.sorted_mergeSort htrans htotal
      (files.foldl (indexFile now) initIndexAcc).recentPool
    have hs2 : List.Pairwise (fun a b : Nat × NewsItem => b.1 ≤ a.1)
        (((files.foldl (indexFile now) initIndexAcc).recentPool).mergeSort recentLe) :=
      hs.imp (fun h => by simpa [recentLe] using h)
    exact List.Pairwise.sublist (List.take_sublist _ _) hs2
  · rw [List.all_eq_true]
    intro x hx
    have hx2 := (List.take_sublist 100 _).subset hx
    have hx3 := (List.mergeSort_perm
      (files.foldl (indexFile now) initIndexAcc).recentPool recentLe).subset hx2
    rcases foldIndex_recentPool now files initIndexAcc x hx3 with h | h
    · simp [initIndexAcc] at h
    · simpa using h

/-- Counterexample to C7 as stated: a parseable record file of the wrong
shape (`videoList` absent, as in a file holding only `notVideoList`) produces
NO warning — the warning list stays empty — and the file is not excluded but
listed as a zero-item day entry; the scan does continue to the next file. -/
theorem index_wrongShape_counterexample :
    wrongShapeFiles.head? = some (dayOfYmd 2025 1 1, FileContent.parsed none) ∧
    (generateNewsIndex (dayOfYmd 2025 1 10) wrongShapeFiles).warnings = [] ∧
    (generateNewsIndex (dayOfYmd 2025 1 10) wrongShapeFiles).dayEntries
      = [(dayOfYmd 2025 1 1, 0), (dayOfYmd 2025 1 2, 1)] ∧
    (generateNewsIndex (dayOfYmd 2025 1 10) wrongShapeFiles).totalNews = 1 := by
  decide

/-- Claim C7 as amended: during an index scan, a file that fails JSON parsing
is warned about and skipped, while a parseable file lacking `videoList` (the
wrong-shape case) is silently treated as a zero-item record — counted as 0
and still listed in its month — and in all cases every file of the store is
processed (the scan never aborts): the warning and entry lists are total
functions of the whole input list. -/
theorem index_wrongShape_amended (now : Nat) (files : List (Nat × FileContent)) :
    (generateNewsIndex now files).warnings = files.filterMap warnSel ∧
    (generateNewsIndex now files).dayEntries = files.filterMap entrySel ∧
    (generateNewsIndex now files).totalNews = (files.map fileCnt).sum := by
  refine ⟨?_, ?_, index_totalNews_char now files⟩
  · unfold generateNewsIndex
    simpa [initIndexAcc] using foldIndex_warnings now files initIndexAcc
  · unfold generateNewsIndex
    simpa [initIndexAcc] using foldIndex_dayEntries now files initIndexAcc

end Cctv
